import Mathlib

/-!
Verification development for the BaZi / 4D recommendation script (`main.py`).

The script is a four-stage pure pipeline: parse a date/time string, compute
four (stem, branch) pillars by table-driven index arithmetic, tally the
five elemental categories over the eight symbols, and emit five 4-digit
suggestions from a generator seeded by a digest of the raw input text.

Python standard-library primitives used by the script (`datetime.date`
ordinal arithmetic, `datetime.strptime`, `hashlib.sha256`, `random.Random`)
are not part of the repository; they are modelled here as noted on each
definition.  Everything else is a direct translation of `main.py`.

Dictionary indexing (`d[k]`), which raises `KeyError` on a missing key, is
modelled by `Option`-returning lookups; `none` corresponds to the raised
exception.
-/

/-! ## Dates and times -/

/-- Modelled from the spec: the parser produces a structured timestamp
("naive local time"); Python's `datetime.date` holds a Gregorian
year/month/day. -/
structure Date where
  year : Nat
  month : Nat
  day : Nat
deriving DecidableEq, Repr

/-- Modelled from the spec: the time-of-day part of the parsed timestamp.
Only the hour is ever consumed by the pillar calculator. -/
structure TimeOfDay where
  hour : Nat
  minute : Nat
deriving DecidableEq, Repr

/-- A parsed timestamp: a date together with a time of day. -/
structure DateTime where
  date : Date
  time : TimeOfDay
deriving DecidableEq, Repr

/-- Gregorian leap-year rule, as used by Python's `datetime` module. -/
def isLeapYear (y : Nat) : Bool :=
  y % 4 == 0 && (y % 100 != 0 || y % 400 == 0)

/-- Number of days in a Gregorian month (month given as 1..12). -/
def daysInMonth (y m : Nat) : Nat :=
  if m = 2 then (if isLeapYear y then 29 else 28)
  else if m = 4 ∨ m = 6 ∨ m = 9 ∨ m = 11 then 30
  else 31

/-- Days in all full years strictly before year `y` (proleptic Gregorian),
as in `datetime._days_before_year`. -/
def daysBeforeYear (y : Nat) : Nat :=
  (y - 1) * 365 + (y - 1) / 4 - (y - 1) / 100 + (y - 1) / 400

/-- Days in all full months of year `y` strictly before month `m`. -/
def daysBeforeMonth (y m : Nat) : Nat :=
  (List.range (m - 1)).foldl (fun acc i => acc + daysInMonth y (i + 1)) 0

/-- Modelled from the spec: `datetime.date.toordinal`, the day count of a
proleptic-Gregorian date (0001-01-01 has ordinal 1).  Subtraction of two
`datetime.date` values yields the difference of their ordinals in days. -/
def toOrdinal (d : Date) : Nat :=
  daysBeforeYear d.year + daysBeforeMonth d.year d.month + d.day

/-- The dates representable by Python's `datetime.date`
(year 1..9999, month 1..12, day within the month). -/
def ValidDate (d : Date) : Prop :=
  1 ≤ d.year ∧ d.year ≤ 9999 ∧ 1 ≤ d.month ∧ d.month ≤ 12 ∧
    1 ≤ d.day ∧ d.day ≤ daysInMonth d.year d.month

instance (d : Date) : Decidable (ValidDate d) := by
  unfold ValidDate; infer_instance

/-! ## Fixed symbol tables (constants of `main.py`) -/

/-- The ten heavenly stems, in table order. -/
def STEMS : List String :=
  ["甲", "乙", "丙", "丁", "戊", "己", "庚", "辛", "壬", "癸"]

/-- The twelve earthly branches, in table order. -/
def BRANCHES : List String :=
  ["子", "丑", "寅", "卯", "辰", "巳", "午", "未", "申", "酉", "戌", "亥"]

/-- `ELEMENTS_BY_STEM` dictionary: element of each stem. -/
def ELEMENTS_BY_STEM : String → Option String
  | "甲" => some "木"
  | "乙" => some "木"
  | "丙" => some "火"
  | "丁" => some "火"
  | "戊" => some "土"
  | "己" => some "土"
  | "庚" => some "金"
  | "辛" => some "金"
  | "壬" => some "水"
  | "癸" => some "水"
  | _ => none

/-- `ELEMENTS_BY_BRANCH` dictionary: element of each branch. -/
def ELEMENTS_BY_BRANCH : String → Option String
  | "子" => some "水"
  | "丑" => some "土"
  | "寅" => some "木"
  | "卯" => some "木"
  | "辰" => some "土"
  | "巳" => some "火"
  | "午" => some "火"
  | "未" => some "土"
  | "申" => some "金"
  | "酉" => some "金"
  | "戌" => some "土"
  | "亥" => some "水"
  | _ => none

/-- `MONTH_BRANCHES_BY_GREGORIAN` dictionary: branch of each Gregorian month. -/
def MONTH_BRANCHES_BY_GREGORIAN : Nat → Option String
  | 1 => some "丑"
  | 2 => some "寅"
  | 3 => some "卯"
  | 4 => some "辰"
  | 5 => some "巳"
  | 6 => some "午"
  | 7 => some "未"
  | 8 => some "申"
  | 9 => some "酉"
  | 10 => some "戌"
  | 11 => some "亥"
  | 12 => some "子"
  | _ => none

/-- `HOUR_BRANCHES` table: (window start, window end, branch). -/
def HOUR_BRANCHES : List (Nat × Nat × String) :=
  [(23, 1, "子"), (1, 3, "丑"), (3, 5, "寅"), (5, 7, "卯"),
   (7, 9, "辰"), (9, 11, "巳"), (11, 13, "午"), (13, 15, "未"),
   (15, 17, "申"), (17, 19, "酉"), (19, 21, "戌"), (21, 23, "亥")]

/-- `MONTH_STEM_START` dictionary: starting month stem keyed by year stem. -/
def MONTH_STEM_START : String → Option String
  | "甲" => some "丙"
  | "己" => some "丙"
  | "乙" => some "戊"
  | "庚" => some "戊"
  | "丙" => some "庚"
  | "辛" => some "庚"
  | "丁" => some "壬"
  | "壬" => some "壬"
  | "戊" => some "甲"
  | "癸" => some "甲"
  | _ => none

/-- `HOUR_STEM_START` dictionary: starting hour stem keyed by day stem. -/
def HOUR_STEM_START : String → Option String
  | "甲" => some "甲"
  | "己" => some "甲"
  | "乙" => some "丙"
  | "庚" => some "丙"
  | "丙" => some "戊"
  | "辛" => some "戊"
  | "丁" => some "庚"
  | "壬" => some "庚"
  | "戊" => some "壬"
  | "癸" => some "壬"
  | _ => none

/-- `ELEMENT_DIGITS` dictionary: decimal digits associated with each element. -/
def ELEMENT_DIGITS : String → Option (List Nat)
  | "木" => some [3, 4]
  | "火" => some [9]
  | "土" => some [2, 5, 8]
  | "金" => some [6, 7]
  | "水" => some [0, 1]
  | _ => none

/-! ## Pillars -/

/-- The `BaZi` dataclass: four (stem, branch) pillars. -/
structure BaZi where
  year : String × String
  month : String × String
  day : String × String
  hour : String × String
deriving DecidableEq, Repr

/-- `BaZi.pillars`: the four pillars in year/month/day/hour order. -/
def BaZi.pillars (b : BaZi) : List (String × String) :=
  [b.year, b.month, b.day, b.hour]

/-- `_stem_branch_from_index`: `STEMS[index % 10], BRANCHES[index % 12]`.
Python's `%` on a positive modulus agrees with `Int.emod`, and the result
is always in range, so the list default is unreachable. -/
def stem_branch_from_index (index : Int) : String × String :=
  (STEMS.getD (index % 10).toNat "", BRANCHES.getD (index % 12).toNat "")

/-- The fixed epoch date 1984-02-02 (`甲子` day) of `_day_index_from_base`. -/
def baseDate : Date := ⟨1984, 2, 2⟩

/-- `_day_index_from_base`: signed day offset of `date_value` from the
epoch, via `datetime.date` subtraction (ordinal difference). -/
def day_index_from_base (date_value : Date) : Int :=
  (toOrdinal date_value : Int) - (toOrdinal baseDate : Int)

/-- `year_pillar`: index `year − 1984` into both tables. -/
def year_pillar (date_value : Date) : String × String :=
  stem_branch_from_index ((date_value.year : Int) - 1984)

/-- `month_pillar`: branch from the Gregorian month table, stem advanced
`(month − 1) % 12` steps from the start stem keyed by the year stem. -/
def month_pillar (date_value : Date) (year_stem : String) :
    Option (String × String) := do
  let branch ← MONTH_BRANCHES_BY_GREGORIAN date_value.month
  let start_stem ← MONTH_STEM_START year_stem
  let start_index ← STEMS.indexOf? start_stem
  let month_index := (date_value.month - 1) % 12
  return (STEMS.getD ((start_index + month_index) % 10) "", branch)

/-- `day_pillar`: stem/branch of the day offset from the epoch. -/
def day_pillar (date_value : Date) : String × String :=
  stem_branch_from_index (day_index_from_base date_value)

/-- The branch-selection loop of `hour_pillar`: scan the windows, keeping
the default `"子"` if none matches; a wrap-around window (start > end)
matches when `hour ≥ start` or `hour < end`. -/
def hourBranchScan (hour : Nat) : List (Nat × Nat × String) → String
  | [] => "子"
  | (s, e, v) :: rest =>
    if (s ≤ e ∧ s ≤ hour ∧ hour < e) ∨ (e < s ∧ (s ≤ hour ∨ hour < e)) then v
    else hourBranchScan hour rest

/-- `hour_pillar`: branch from the two-hour window of the clock hour, stem
advanced by the branch index from the start stem keyed by the day stem. -/
def hour_pillar (time_value : TimeOfDay) (day_stem : String) :
    Option (String × String) := do
  let branch := hourBranchScan time_value.hour HOUR_BRANCHES
  let start_stem ← HOUR_STEM_START day_stem
  let start_index ← STEMS.indexOf? start_stem
  let branch_index ← BRANCHES.indexOf? branch
  return (STEMS.getD ((start_index + branch_index) % 10) "", branch)

/-- `compute_bazi`: the four pillars of a date and time. -/
def compute_bazi (date_value : Date) (time_value : TimeOfDay) :
    Option BaZi := do
  let year := year_pillar date_value
  let month ← month_pillar date_value year.1
  let day := day_pillar date_value
  let hour ← hour_pillar time_value day.1
  return ⟨year, month, day, hour⟩


/-! ## Element tally -/

/-- The counter dictionary of `element_strength`, in insertion order. -/
def initialCounts : List (String × Nat) :=
  [("木", 0), ("火", 0), ("土", 0), ("金", 0), ("水", 0)]

/-- `counts[key] += 1` on the ordered association list; `none` models the
`KeyError` raised when the key is absent. -/
def bumpCount (key : String) : List (String × Nat) → Option (List (String × Nat))
  | [] => none
  | (k, v) :: rest =>
    if k = key then some ((k, v + 1) :: rest)
    else (bumpCount key rest).map (fun r => (k, v) :: r)

/-- One iteration of the `element_strength` loop: add the stem's element
and the branch's element of one pillar to the counts. -/
def tallyPillar (counts : List (String × Nat)) (p : String × String) :
    Option (List (String × Nat)) := do
  let e1 ← ELEMENTS_BY_STEM p.1
  let c1 ← bumpCount e1 counts
  let e2 ← ELEMENTS_BY_BRANCH p.2
  bumpCount e2 c1

/-- The `for stem, branch in bazi.pillars()` loop of `element_strength`,
threading the counter through the pillars in order. -/
def tallyPillars (counts : List (String × Nat)) :
    List (String × String) → Option (List (String × Nat))
  | [] => some counts
  | p :: rest => do
    let c ← tallyPillar counts p
    tallyPillars c rest

/-- `element_strength`: tally the elements of the eight symbols of the four
pillars, starting from the zeroed five-category counter. -/
def element_strength (bazi : BaZi) : Option (List (String × Nat)) :=
  tallyPillars initialCounts bazi.pillars

/-! ## Recommender -/

/-- Modelled from the spec: `hashlib.sha256(seed.encode()).hexdigest()`
followed by `int(_, 16)` is a deterministic digest of the input text,
converted to a large integer; `hashlib` is Python standard library, not
part of this repository.  Modelled as a deterministic fold over the
code points of the text. -/
def seedHashNat (seed : String) : Nat :=
  seed.data.foldl (fun acc c => acc * 1114112 + c.toNat) 0

/-- Modelled from the spec: the state of `random.Random`, a generator
"whose output sequence is a pure function of its seed" (Python standard
library, not part of this repository). -/
structure RngState where
  val : Nat
deriving DecidableEq, Repr

/-- Modelled from the spec: seeding the generator from the digest integer. -/
def rngInit (n : Nat) : RngState :=
  ⟨n % 2 ^ 64⟩

/-- Modelled from the spec: one step of the deterministic generator,
modelled as a 64-bit linear congruential update. -/
def rngNext (s : RngState) : Nat × RngState :=
  let v := (s.val * 6364136223846793005 + 1442695040888963407) % 2 ^ 64
  (v, ⟨v⟩)

/-- Modelled from the spec: `rng.choice(pool)` draws the next generator
output and picks the element at that index modulo the pool size,
consuming one draw in strict call order. -/
def rngChoice (s : RngState) (pool : List Nat) : Nat × RngState :=
  let (v, s') := rngNext s
  (pool.getD (v % pool.length) 0, s')

/-- `sorted(element_counts.items(), key=lambda item: item[1])`: Python's
`sorted` is a stable ascending sort, and a stable ascending reordering of
a list is unique, so insertion sort computes exactly its output. -/
def sorted_elements (element_counts : List (String × Nat)) :
    List (String × Nat) :=
  List.insertionSort (fun a b => a.2 ≤ b.2) element_counts

/-- `weak_elements`: the categories of the two lowest-count entries. -/
def weak_elements (element_counts : List (String × Nat)) : List String :=
  ((sorted_elements element_counts).take 2).map Prod.fst

/-- The fallback pool `[digit for digits in ELEMENT_DIGITS.values() for
digit in digits]`, the dictionary's values in insertion order. -/
def elementDigitsValues : List (List Nat) :=
  [[3, 4], [9], [2, 5, 8], [6, 7], [0, 1]]

/-- The 4-digit string built by joining `str(rng.choice(digits_pool))`
for four successive draws, generalised
to `n` draws, threading the generator state in draw order. -/
def drawNumber : Nat → List Nat → RngState → String × RngState
  | 0, _, rng => ("", rng)
  | n + 1, pool, rng =>
    let (d, rng1) := rngChoice rng pool
    let (rest, rng2) := drawNumber n pool rng1
    (toString d ++ rest, rng2)

/-- The explanation string built in each loop iteration: the weak
categories and the sorted, deduplicated eligible digits. -/
def explanationFor (weak : List String) (digits_pool : List Nat) : String :=
  "偏弱元素: " ++ String.intercalate "、" weak ++ " | 使用对应数字: " ++
    String.intercalate ", " ((List.insertionSort (· ≤ ·) digits_pool.dedup).map toString)

/-- The `for _ in range(sets)` loop of `recommend_numbers`: each iteration
draws one 4-digit number and pairs it with the explanation. -/
def recommendLoop : Nat → List Nat → List String → RngState →
    List (String × String) × RngState
  | 0, _, _, rng => ([], rng)
  | n + 1, pool, weak, rng =>
    let (number, rng1) := drawNumber 4 pool rng
    let explanation := explanationFor weak pool
    let (rest, rng2) := recommendLoop n pool weak rng1
    ((number, explanation) :: rest, rng2)

/-- The comprehension `[digit for element in weak_elements for digit in
ELEMENT_DIGITS[element]]`; `none` models the `KeyError` on a category
absent from `ELEMENT_DIGITS`. -/
def collectDigits : List String → Option (List Nat)
  | [] => some []
  | e :: rest => do
    let ds ← ELEMENT_DIGITS e
    let tail ← collectDigits rest
    return ds ++ tail

/-- `recommend_numbers`: pick the two weakest categories, pool their
digits (falling back to all digits if the pool is empty), seed the
generator from the digest of the raw seed text, and emit `sets`
recommendations. -/
def recommend_numbers (seed : String) (element_counts : List (String × Nat))
    (sets : Nat) : Option (List (String × String)) := do
  let weak := weak_elements element_counts
  let digits_pool0 ← collectDigits weak
  let digits_pool := if digits_pool0 = [] then elementDigitsValues.flatten else digits_pool0
  let rng := rngInit (seedHashNat seed)
  return (recommendLoop sets digits_pool weak rng).1

/-- Output-shape checker for the recommender: the call succeeded and
produced exactly `sets` recommendations, each a string of four decimal
digits. -/
def wellFormedOutput : Option (List (String × String)) → Nat → Bool
  | none, _ => false
  | some l, sets =>
    l.length == sets && l.all (fun r => r.1.length == 4 && r.1.data.all Char.isDigit)

/-- Checker that a pillar computation succeeded and produced a stem from
`STEMS` and a branch from `BRANCHES`. -/
def pillarOkB : Option (String × String) → Bool
  | none => false
  | some p => decide (p.1 ∈ STEMS) && decide (p.2 ∈ BRANCHES)


/-! ## Parser -/

/-- Modelled from the spec: `str.strip()` on the input line removes
leading and trailing whitespace before any format is attempted. -/
def stripChars (l : List Char) : List Char :=
  ((l.dropWhile Char.isWhitespace).reverse.dropWhile Char.isWhitespace).reverse

/-- Read exactly `n` decimal digits, accumulating their value. -/
def readFixedDigits : Nat → Nat → List Char → Option (Nat × List Char)
  | 0, acc, cs => some (acc, cs)
  | _ + 1, _, [] => none
  | n + 1, acc, c :: cs =>
    if c.isDigit then readFixedDigits n (acc * 10 + (c.toNat - 48)) cs else none

/-- Read one or two decimal digits, greedily. -/
def readOneOrTwoDigits : List Char → Option (Nat × List Char)
  | [] => none
  | c :: cs =>
    if c.isDigit then
      match cs with
      | c2 :: cs2 =>
        if c2.isDigit then some ((c.toNat - 48) * 10 + (c2.toNat - 48), cs2)
        else some (c.toNat - 48, cs)
      | [] => some (c.toNat - 48, [])
    else none

/-- Require the next character to be `ch` and consume it. -/
def expectChar (ch : Char) : List Char → Option (List Char)
  | [] => none
  | c :: cs => if c = ch then some cs else none

/-- Modelled from the spec: `datetime.strptime(s, fmt)` for the formats
`%Y<sep>%m<sep>%d %H:%M` used by the script: a four-digit year, a
one-or-two-digit month (1..12), day (1..31), hour (0..23) and minute
(0..59), the whole string consumed, followed by the `datetime`
constructor's range validation (year 1..9999, day within the month);
any failure raises `ValueError`, modelled by `none`. -/
def parseFormat (sep : Char) (cs : List Char) : Option DateTime := do
  let (y, cs) ← readFixedDigits 4 0 cs
  let cs ← expectChar sep cs
  let (m, cs) ← readOneOrTwoDigits cs
  guard (1 ≤ m ∧ m ≤ 12)
  let cs ← expectChar sep cs
  let (d, cs) ← readOneOrTwoDigits cs
  guard (1 ≤ d ∧ d ≤ 31)
  let cs ← expectChar ' ' cs
  let (hh, cs) ← readOneOrTwoDigits cs
  guard (hh ≤ 23)
  let cs ← expectChar ':' cs
  let (mm, cs) ← readOneOrTwoDigits cs
  guard (mm ≤ 59)
  guard (cs = [])
  guard (1 ≤ y ∧ y ≤ 9999 ∧ d ≤ daysInMonth y m)
  return ⟨⟨y, m, d⟩, ⟨hh, mm⟩⟩

/-- The user-facing message of the single error raised by the parser. -/
def expectedFormatMessage : String := "请输入格式: YYYY-MM-DD HH:MM"

/-- `parse_datetime`: try the hyphen format, then the slash format, on
the stripped input; raise `ValueError` with the format hint if neither
matches. -/
def parse_datetime (input_value : String) : Except String DateTime :=
  match parseFormat '-' (stripChars input_value.data) with
  | some v => .ok v
  | none =>
    match parseFormat '/' (stripChars input_value.data) with
    | some v => .ok v
    | none => .error expectedFormatMessage


/-! ## Totality of the pillar lookups -/

theorem pillarOkB_elim {o : Option (String × String)} (h : pillarOkB o = true) :
    ∃ p, o = some p ∧ p.1 ∈ STEMS ∧ p.2 ∈ BRANCHES := by
  cases o with
  | none => simp [pillarOkB] at h
  | some p =>
    simp only [pillarOkB, Bool.and_eq_true, decide_eq_true_eq] at h
    exact ⟨p, rfl, h.1, h.2⟩

theorem emod_ten_toNat_lt (i : Int) : (i % 10).toNat < 10 := by
  have h1 : 0 ≤ i % 10 := Int.emod_nonneg i (by norm_num)
  have h2 : i % 10 < 10 := Int.emod_lt_of_pos i (by norm_num)
  omega

theorem emod_twelve_toNat_lt (i : Int) : (i % 12).toNat < 12 := by
  have h1 : 0 ≤ i % 12 := Int.emod_nonneg i (by norm_num)
  have h2 : i % 12 < 12 := Int.emod_lt_of_pos i (by norm_num)
  omega

theorem stems_getD_mem : ∀ n, n < 10 → STEMS.getD n "" ∈ STEMS := by decide

theorem branches_getD_mem : ∀ n, n < 12 → BRANCHES.getD n "" ∈ BRANCHES := by decide

theorem stem_branch_from_index_mem (i : Int) :
    (stem_branch_from_index i).1 ∈ STEMS ∧ (stem_branch_from_index i).2 ∈ BRANCHES :=
  ⟨stems_getD_mem _ (emod_ten_toNat_lt i), branches_getD_mem _ (emod_twelve_toNat_lt i)⟩

theorem month_pillar_ok : ∀ m, m < 13 → 1 ≤ m → ∀ ys ∈ STEMS,
    pillarOkB (month_pillar ⟨1, m, 1⟩ ys) = true := by decide

theorem month_pillar_eq_month (y m dd : Nat) (ys : String) :
    month_pillar ⟨y, m, dd⟩ ys = month_pillar ⟨1, m, 1⟩ ys := rfl

theorem hour_pillar_ok : ∀ h, h < 24 → ∀ ds ∈ STEMS,
    pillarOkB (hour_pillar ⟨h, 0⟩ ds) = true := by decide

theorem hour_pillar_eq_hour (h mi : Nat) (ds : String) :
    hour_pillar ⟨h, mi⟩ ds = hour_pillar ⟨h, 0⟩ ds := rfl

theorem compute_bazi_total (d : Date) (t : TimeOfDay) (hd : ValidDate d)
    (ht : t.hour < 24) :
    ∃ b, compute_bazi d t = some b ∧ b.year = year_pillar d ∧
      b.day = day_pillar d ∧ ∀ p ∈ b.pillars, p.1 ∈ STEMS ∧ p.2 ∈ BRANCHES := by
  obtain ⟨y, m, dd⟩ := d
  obtain ⟨hh, mi⟩ := t
  obtain ⟨hy1, hy2, hm1, hm2, hd1, hd2⟩ := hd
  have ht' : hh < 24 := ht
  have hm1' : 1 ≤ m := hm1
  have hm2' : m ≤ 12 := hm2
  have hyearmem := stem_branch_from_index_mem ((y : Int) - 1984)
  have hdaymem := stem_branch_from_index_mem (day_index_from_base ⟨y, m, dd⟩)
  have hmp := month_pillar_ok m (by omega) hm1' (year_pillar ⟨y, m, dd⟩).1 hyearmem.1
  obtain ⟨mp, hmp_eq, hmp1, hmp2⟩ := pillarOkB_elim hmp
  have hhp := hour_pillar_ok hh ht' (day_pillar ⟨y, m, dd⟩).1 hdaymem.1
  obtain ⟨hp, hhp_eq, hhp1, hhp2⟩ := pillarOkB_elim hhp
  refine ⟨⟨year_pillar ⟨y, m, dd⟩, mp, day_pillar ⟨y, m, dd⟩, hp⟩, ?_, rfl, rfl, ?_⟩
  · simp only [compute_bazi, month_pillar_eq_month, hour_pillar_eq_hour]
    rw [hmp_eq, hhp_eq]
    rfl
  · intro p hmem
    simp only [BaZi.pillars, List.mem_cons, List.not_mem_nil, or_false] at hmem
    rcases hmem with rfl | rfl | rfl | rfl
    · exact hyearmem
    · exact ⟨hmp1, hmp2⟩
    · exact hdaymem
    · exact ⟨hhp1, hhp2⟩

/-! ## The element tally sums to 8 -/

theorem bumpCount_some {key : String} :
    ∀ {l : List (String × Nat)}, key ∈ l.map Prod.fst →
      ∃ l', bumpCount key l = some l' ∧ l'.map Prod.fst = l.map Prod.fst ∧
        (l'.map Prod.snd).sum = (l.map Prod.snd).sum + 1 := by
  intro l
  induction l with
  | nil => intro h; simp at h
  | cons x rest ih =>
    intro h
    obtain ⟨k, v⟩ := x
    by_cases hk : k = key
    · refine ⟨(k, v + 1) :: rest, ?_, by simp, ?_⟩
      · simp [bumpCount, hk]
      · simp only [List.map_cons, List.sum_cons]
        omega
    · have hmem : key ∈ rest.map Prod.fst := by
        simp only [List.map_cons, List.mem_cons] at h
        rcases h with h | h
        · exact absurd h.symm hk
        · exact h
      obtain ⟨l', h1, h2, h3⟩ := ih hmem
      refine ⟨(k, v) :: l', ?_, by simp [h2], ?_⟩
      · simp [bumpCount, hk, h1]
      · simp only [List.map_cons, List.sum_cons, h3]
        omega

theorem elements_by_stem_mem {s : String} (hs : s ∈ STEMS) :
    ∃ e, ELEMENTS_BY_STEM s = some e ∧ e ∈ initialCounts.map Prod.fst := by
  simp only [STEMS, List.mem_cons, List.not_mem_nil, or_false] at hs
  rcases hs with rfl | rfl | rfl | rfl | rfl | rfl | rfl | rfl | rfl | rfl <;>
    exact ⟨_, rfl, by decide⟩

theorem elements_by_branch_mem {s : String} (hs : s ∈ BRANCHES) :
    ∃ e, ELEMENTS_BY_BRANCH s = some e ∧ e ∈ initialCounts.map Prod.fst := by
  simp only [BRANCHES, List.mem_cons, List.not_mem_nil, or_false] at hs
  rcases hs with rfl | rfl | rfl | rfl | rfl | rfl | rfl | rfl | rfl | rfl | rfl | rfl <;>
    exact ⟨_, rfl, by decide⟩

theorem tallyPillar_some {counts : List (String × Nat)} {p : String × String}
    (hp1 : p.1 ∈ STEMS) (hp2 : p.2 ∈ BRANCHES)
    (hkeys : counts.map Prod.fst = initialCounts.map Prod.fst) :
    ∃ counts', tallyPillar counts p = some counts' ∧
      counts'.map Prod.fst = initialCounts.map Prod.fst ∧
      (counts'.map Prod.snd).sum = (counts.map Prod.snd).sum + 2 := by
  obtain ⟨e1, he1, he1m⟩ := elements_by_stem_mem hp1
  obtain ⟨e2, he2, he2m⟩ := elements_by_branch_mem hp2
  have h1 : e1 ∈ counts.map Prod.fst := by rw [hkeys]; exact he1m
  obtain ⟨c1, hc1, hc1k, hc1s⟩ := bumpCount_some h1
  have h2 : e2 ∈ c1.map Prod.fst := by rw [hc1k, hkeys]; exact he2m
  obtain ⟨c2, hc2, hc2k, hc2s⟩ := bumpCount_some h2
  refine ⟨c2, ?_, hc2k.trans (hc1k.trans hkeys), by omega⟩
  simp [tallyPillar, he1, hc1, he2, hc2]

theorem element_strength_total {b : BaZi}
    (h : ∀ p ∈ b.pillars, p.1 ∈ STEMS ∧ p.2 ∈ BRANCHES) :
    ∃ counts, element_strength b = some counts ∧
      counts.map Prod.fst = initialCounts.map Prod.fst ∧
      (counts.map Prod.snd).sum = 8 := by
  have hy := h b.year (by simp [BaZi.pillars])
  have hm := h b.month (by simp [BaZi.pillars])
  have hd := h b.day (by simp [BaZi.pillars])
  have hh := h b.hour (by simp [BaZi.pillars])
  obtain ⟨c1, h1, h1k, h1s⟩ := tallyPillar_some hy.1 hy.2 rfl
  obtain ⟨c2, h2, h2k, h2s⟩ := tallyPillar_some hm.1 hm.2 h1k
  obtain ⟨c3, h3, h3k, h3s⟩ := tallyPillar_some hd.1 hd.2 h2k
  obtain ⟨c4, h4, h4k, h4s⟩ := tallyPillar_some hh.1 hh.2 h3k
  refine ⟨c4, ?_, h4k, ?_⟩
  · simp [element_strength, BaZi.pillars, tallyPillars, h1, h2, h3, h4]
  · have h0 : (initialCounts.map Prod.snd).sum = 0 := by decide
    omega

/-! ## Stability of the recommender's sort -/

instance : IsTotal (String × Nat) (fun a b => a.2 ≤ b.2) :=
  ⟨fun a b => Nat.le_total a.2 b.2⟩

instance : IsTrans (String × Nat) (fun a b => a.2 ≤ b.2) :=
  ⟨fun _ _ _ h1 h2 => Nat.le_trans h1 h2⟩

theorem sorted_elements_sorted (l : List (String × Nat)) :
    List.Sorted (fun a b : String × Nat => a.2 ≤ b.2) (sorted_elements l) :=
  List.sorted_insertionSort _ l

theorem filter_orderedInsert (x : String × Nat) (k : Nat) :
    ∀ l : List (String × Nat),
      (List.orderedInsert (fun a b => a.2 ≤ b.2) x l).filter (fun p => p.2 == k) =
        if x.2 = k then x :: l.filter (fun p => p.2 == k)
        else l.filter (fun p => p.2 == k) := by
  intro l
  induction l with
  | nil =>
    by_cases hx : x.2 = k <;> simp [List.orderedInsert, List.filter_cons, hx]
  | cons y ys ih =>
    by_cases hr : x.2 ≤ y.2
    · simp only [List.orderedInsert, if_pos hr]
      by_cases hx : x.2 = k <;> by_cases hy : y.2 = k <;>
        simp [List.filter_cons, hx, hy]
    · simp only [List.orderedInsert, if_neg hr]
      by_cases hy : y.2 = k
      · by_cases hx : x.2 = k
        · omega
        · simp [List.filter_cons, hy, hx, ih]
      · by_cases hx : x.2 = k <;> simp [List.filter_cons, hy, hx, ih]

theorem filter_sorted_elements (l : List (String × Nat)) (k : Nat) :
    (sorted_elements l).filter (fun p => p.2 == k) = l.filter (fun p => p.2 == k) := by
  induction l with
  | nil => rfl
  | cons x xs ih =>
    simp only [sorted_elements, List.insertionSort] at ih ⊢
    rw [filter_orderedInsert]
    by_cases hx : x.2 = k <;> simp [List.filter_cons, hx, ih]

/-! ## Whitespace stripping -/

theorem dropWhile_all_append {p : Char → Bool} :
    ∀ {pre : List Char}, (∀ c ∈ pre, p c = true) →
      ∀ l, List.dropWhile p (pre ++ l) = List.dropWhile p l := by
  intro pre
  induction pre with
  | nil => intro _ l; rfl
  | cons c cs ih =>
    intro h l
    have hc : p c = true := h c (by simp)
    simp only [List.cons_append, List.dropWhile_cons, hc, if_true]
    exact ih (fun c' hc' => h c' (by simp [hc'])) l

theorem dropWhile_all_nil {p : Char → Bool} {l : List Char}
    (h : ∀ c ∈ l, p c = true) : List.dropWhile p l = [] := by
  have := dropWhile_all_append h []
  simpa using this

theorem dropWhile_append_eq {p : Char → Bool} :
    ∀ l₁ l₂ : List Char, List.dropWhile p (l₁ ++ l₂) =
      if List.dropWhile p l₁ = [] then List.dropWhile p l₂
      else List.dropWhile p l₁ ++ l₂ := by
  intro l₁
  induction l₁ with
  | nil => intro l₂; simp
  | cons c cs ih =>
    intro l₂
    by_cases hc : p c = true
    · simpa [List.dropWhile_cons, hc] using ih l₂
    · simp [List.dropWhile_cons, hc]

theorem stripChars_pad {pad tail : List Char}
    (hpad : ∀ c ∈ pad, c.isWhitespace = true)
    (htail : ∀ c ∈ tail, c.isWhitespace = true) (l : List Char) :
    stripChars (pad ++ l ++ tail) = stripChars l := by
  unfold stripChars
  rw [List.append_assoc, dropWhile_all_append hpad, dropWhile_append_eq]
  by_cases h : List.dropWhile Char.isWhitespace l = []
  · simp [h, dropWhile_all_nil htail]
  · rw [if_neg h, List.reverse_append,
      dropWhile_all_append (fun c hc => htail c (List.mem_reverse.mp hc))]

/-! ## Shape of the recommender's output -/

theorem element_digits_le {e : String} {ds : List Nat}
    (h : ELEMENT_DIGITS e = some ds) : ∀ x ∈ ds, x ≤ 9 := by
  unfold ELEMENT_DIGITS at h
  split at h <;>
    first
    | exact Option.noConfusion h
    | (injection h with h; subst h; decide)

theorem collectDigits_some {l : List String}
    (h : ∀ e ∈ l, (ELEMENT_DIGITS e).isSome = true) :
    ∃ ds, collectDigits l = some ds ∧ ∀ x ∈ ds, x ≤ 9 := by
  induction l with
  | nil => exact ⟨[], rfl, by simp⟩
  | cons e rest ih =>
    have he : (ELEMENT_DIGITS e).isSome = true := h e (by simp)
    obtain ⟨d0, hd0⟩ := Option.isSome_iff_exists.mp he
    obtain ⟨ds, hds, hle⟩ := ih (fun e' he' => h e' (by simp [he']))
    refine ⟨d0 ++ ds, ?_, ?_⟩
    · simp [collectDigits, hd0, hds]
    · intro x hx
      rcases List.mem_append.mp hx with hx | hx
      · exact element_digits_le hd0 x hx
      · exact hle x hx

theorem fallback_digits_le : ∀ x ∈ elementDigitsValues.flatten, x ≤ 9 := by decide

theorem fallback_ne_nil : elementDigitsValues.flatten ≠ [] := by decide

theorem rngChoice_le {rng : RngState} {pool : List Nat}
    (hp : pool ≠ []) (hb : ∀ x ∈ pool, x ≤ 9) : (rngChoice rng pool).1 ≤ 9 := by
  have hlen : 0 < pool.length := List.length_pos.mpr hp
  have hidx : ((rngNext rng).1 % pool.length) < pool.length := Nat.mod_lt _ hlen
  have heq : (rngChoice rng pool).1 = pool.getD ((rngNext rng).1 % pool.length) 0 := rfl
  rw [heq, List.getD_eq_getElem?_getD, List.getElem?_eq_getElem hidx]
  exact hb _ (List.getElem_mem hidx)

theorem toString_digit : ∀ d, d < 10 → (toString d).length = 1 ∧
    ∀ c ∈ (toString d).data, c.isDigit = true := by decide

theorem drawNumber_succ (n : Nat) (pool : List Nat) (rng : RngState) :
    drawNumber (n + 1) pool rng =
      (toString (rngChoice rng pool).1 ++ (drawNumber n pool (rngChoice rng pool).2).1,
        (drawNumber n pool (rngChoice rng pool).2).2) := rfl

theorem drawNumber_shape : ∀ (n : Nat) (pool : List Nat) (rng : RngState),
    pool ≠ [] → (∀ x ∈ pool, x ≤ 9) →
    (drawNumber n pool rng).1.length = n ∧
    ∀ c ∈ (drawNumber n pool rng).1.data, c.isDigit = true := by
  intro n
  induction n with
  | zero =>
    intro pool rng hp hb
    exact ⟨rfl, by intro c hc; simp [drawNumber] at hc⟩
  | succ n ih =>
    intro pool rng hp hb
    have hd : (rngChoice rng pool).1 ≤ 9 := rngChoice_le hp hb
    obtain ⟨hl, hc⟩ := ih pool (rngChoice rng pool).2 hp hb
    have hts := toString_digit (rngChoice rng pool).1 (by omega)
    rw [drawNumber_succ]
    constructor
    · rw [String.length_append, hts.1, hl]
      omega
    · intro c hcmem
      rw [String.data_append] at hcmem
      rcases List.mem_append.mp hcmem with h | h
      · exact hts.2 c h
      · exact hc c h

theorem recommendLoop_succ (n : Nat) (pool : List Nat) (weak : List String)
    (rng : RngState) :
    recommendLoop (n + 1) pool weak rng =
      (((drawNumber 4 pool rng).1, explanationFor weak pool) ::
          (recommendLoop n pool weak (drawNumber 4 pool rng).2).1,
        (recommendLoop n pool weak (drawNumber 4 pool rng).2).2) := rfl

theorem recommendLoop_shape : ∀ (n : Nat) (pool : List Nat) (weak : List String)
    (rng : RngState), pool ≠ [] → (∀ x ∈ pool, x ≤ 9) →
    (recommendLoop n pool weak rng).1.length = n ∧
    ∀ r ∈ (recommendLoop n pool weak rng).1, r.1.length = 4 ∧
      ∀ c ∈ r.1.data, c.isDigit = true := by
  intro n
  induction n with
  | zero =>
    intro pool weak rng hp hb
    exact ⟨rfl, by intro r hr; simp [recommendLoop] at hr⟩
  | succ n ih =>
    intro pool weak rng hp hb
    obtain ⟨hl, hall⟩ := ih pool weak (drawNumber 4 pool rng).2 hp hb
    obtain ⟨hnl, hnc⟩ := drawNumber_shape 4 pool rng hp hb
    rw [recommendLoop_succ]
    constructor
    · simp [hl]
    · intro r hr
      rcases List.mem_cons.mp hr with rfl | hr
    
      · exact ⟨hnl, hnc⟩
      · exact hall r hr

theorem weak_elements_sub {l : List (String × Nat)} :
    ∀ e ∈ weak_elements l, e ∈ l.map Prod.fst := by
  intro e he
  unfold weak_elements at he
  obtain ⟨p, hp, rfl⟩ := List.mem_map.mp he
  have hp' : p ∈ sorted_elements l := List.mem_of_mem_take hp
  have hpl : p ∈ l := (List.perm_insertionSort _ l).mem_iff.mp hp'
  exact List.mem_map_of_mem Prod.fst hpl

theorem recommend_numbers_shape {counts : List (String × Nat)} (s : String)
    (sets : Nat) (hall : counts.all (fun c => (ELEMENT_DIGITS c.1).isSome) = true) :
    wellFormedOutput (recommend_numbers s counts sets) sets = true := by
  have hmem : ∀ e ∈ weak_elements counts, (ELEMENT_DIGITS e).isSome = true := by
    intro e he
    obtain ⟨c, hc, rfl⟩ := List.mem_map.mp (weak_elements_sub e he)
    exact List.all_eq_true.mp hall c hc
  obtain ⟨ds, hds, hdsle⟩ := collectDigits_some hmem
  have hpool : (if ds = [] then elementDigitsValues.flatten else ds) ≠ [] := by
    by_cases hnil : ds = []
    · simpa [hnil] using fallback_ne_nil
    · simp [hnil]
  have hbound : ∀ x ∈ (if ds = [] then elementDigitsValues.flatten else ds), x ≤ 9 := by
    by_cases hnil : ds = []
    · simpa [hnil] using fallback_digits_le
    · simpa [hnil] using hdsle
  have hshape := recommendLoop_shape sets _ (weak_elements counts)
    (rngInit (seedHashNat s)) hpool hbound
  simp only [recommend_numbers, hds, Option.bind_eq_bind, Option.some_bind]
  simp only [wellFormedOutput, Bool.and_eq_true, beq_iff_eq, List.all_eq_true]
  refine ⟨hshape.1, ?_⟩
  intro r hr
  obtain ⟨h4, hdig⟩ := hshape.2 r hr
  simp [h4, List.all_eq_true]
  intro c hc
  exact hdig c hc

/-! ## The claims -/

theorem stem_branch_period (i : Int) :
    stem_branch_from_index (i + 60) = stem_branch_from_index i := by
  unfold stem_branch_from_index
  have h10 : (i + 60) % 10 = i % 10 := by omega
  have h12 : (i + 60) % 12 = i % 12 := by omega
  rw [h10, h12]

theorem hourBranchScan_cons (hour s e : Nat) (v : String)
    (rest : List (Nat × Nat × String)) :
    hourBranchScan hour ((s, e, v) :: rest) =
      if (s ≤ e ∧ s ≤ hour ∧ hour < e) ∨ (e < s ∧ (s ≤ hour ∨ hour < e)) then v
      else hourBranchScan hour rest := rfl

/-- C1: for the input "1984-02-02 00:30" the parser yields the epoch date,
whose day pillar is the pair of the first stem and the first branch (index
0 in both tables), and whose year pillar is the same first/first pair. -/
theorem C1_epoch_pillars :
    parse_datetime "1984-02-02 00:30" = .ok ⟨⟨1984, 2, 2⟩, ⟨0, 30⟩⟩ ∧
    day_pillar ⟨1984, 2, 2⟩ = (STEMS.getD 0 "", BRANCHES.getD 0 "") ∧
    year_pillar ⟨1984, 2, 2⟩ = (STEMS.getD 0 "", BRANCHES.getD 0 "") :=
  ⟨rfl, by decide, by decide⟩

/-- C2: the recommender is deterministic — identical raw seed text and
identical counts give identical output (same numbers in the same order,
same explanations) — and whenever every tallied category has a digit
pool the output is exactly `sets` strings of four decimal digits. -/
theorem C2_recommend_deterministic (s1 s2 : String)
    (c1 c2 : List (String × Nat)) (sets : Nat) (hs : s1 = s2) (hc : c1 = c2) :
    recommend_numbers s1 c1 sets = recommend_numbers s2 c2 sets ∧
    (c1.all (fun c => (ELEMENT_DIGITS c.1).isSome) = true →
      wellFormedOutput (recommend_numbers s1 c1 sets) sets = true) := by
  subst hs; subst hc
  exact ⟨rfl, fun hall => recommend_numbers_shape s1 sets hall⟩

theorem C2_witness :
    recommend_numbers "1990-05-17 08:30"
        [("木", 2), ("火", 1), ("土", 3), ("金", 1), ("水", 1)] 5 =
      recommend_numbers "1990-05-17 08:30"
        [("木", 2), ("火", 1), ("土", 3), ("金", 1), ("水", 1)] 5 ∧
    wellFormedOutput
      (recommend_numbers "1990-05-17 08:30"
        [("木", 2), ("火", 1), ("土", 3), ("金", 1), ("水", 1)] 5) 5 = true :=
  ⟨(C2_recommend_deterministic "1990-05-17 08:30" "1990-05-17 08:30"
      [("木", 2), ("火", 1), ("土", 3), ("金", 1), ("水", 1)]
      [("木", 2), ("火", 1), ("土", 3), ("金", 1), ("水", 1)] 5 rfl rfl).1,
    (C2_recommend_deterministic "1990-05-17 08:30" "1990-05-17 08:30"
      [("木", 2), ("火", 1), ("土", 3), ("金", 1), ("水", 1)]
      [("木", 2), ("火", 1), ("土", 3), ("金", 1), ("水", 1)] 5 rfl rfl).2 (by decide)⟩

/-- C3: for every valid date and time the pipeline succeeds and the
element tally maps exactly the five categories to non-negative counts in
[0, 8] that sum to exactly 8. -/
theorem C3_tally_sums_to_eight (d : Date) (t : TimeOfDay)
    (hd : ValidDate d) (ht : t.hour < 24) :
    ∃ b counts, compute_bazi d t = some b ∧ element_strength b = some counts ∧
      counts.map Prod.fst = ["木", "火", "土", "金", "水"] ∧
      (counts.map Prod.snd).sum = 8 ∧ ∀ c ∈ counts, c.2 ≤ 8 := by
  obtain ⟨b, hb, -, -, hmem⟩ := compute_bazi_total d t hd ht
  obtain ⟨counts, hcounts, hkeys, hsum⟩ := element_strength_total hmem
  refine ⟨b, counts, hb, hcounts, hkeys.trans (by decide), hsum, ?_⟩
  intro c hc
  have hcm : c.2 ∈ counts.map Prod.snd := List.mem_map_of_mem Prod.snd hc
  calc c.2 ≤ (counts.map Prod.snd).sum := List.le_sum_of_mem hcm
    _ = 8 := hsum

theorem C3_witness :
    ((compute_bazi ⟨1990, 5, 17⟩ ⟨8, 30⟩).bind element_strength).map
      (fun counts => (counts.map Prod.snd).sum) = some 8 := by
  obtain ⟨b, counts, hb, hc, -, hsum, -⟩ :=
    C3_tally_sums_to_eight ⟨1990, 5, 17⟩ ⟨8, 30⟩ (by decide) (by decide)
  simp [hb, hc, hsum]

/-- C4: the day pillar is periodic with period 60 days: a date lying
exactly 60 days after another has the same day pillar. -/
theorem C4_day_pillar_period (d1 d2 : Date)
    (h : toOrdinal d2 = toOrdinal d1 + 60) : day_pillar d2 = day_pillar d1 := by
  unfold day_pillar day_index_from_base
  have heq : (toOrdinal d2 : Int) - (toOrdinal baseDate : Int) =
      ((toOrdinal d1 : Int) - (toOrdinal baseDate : Int)) + 60 := by
    rw [h]; push_cast; ring
  rw [heq, stem_branch_period]

theorem C4_witness :
    toOrdinal ⟨2000, 3, 1⟩ = toOrdinal ⟨2000, 1, 1⟩ + 60 ∧
    day_pillar ⟨2000, 3, 1⟩ = day_pillar ⟨2000, 1, 1⟩ :=
  ⟨by decide, C4_day_pillar_period ⟨2000, 1, 1⟩ ⟨2000, 3, 1⟩ (by decide)⟩

/-- C5: the hyphen form and the slash form of the same date/time both
parse, to identical timestamps. -/
theorem C5_both_separators :
    parse_datetime "1990-05-17 08:30" = .ok ⟨⟨1990, 5, 17⟩, ⟨8, 30⟩⟩ ∧
    parse_datetime "1990/05/17 08:30" = .ok ⟨⟨1990, 5, 17⟩, ⟨8, 30⟩⟩ :=
  ⟨rfl, rfl⟩

/-- C6: the parser raises an error exactly when neither accepted pattern
matches the (stripped) input; the error carries the expected-format
message; and when a pattern matches, the first matching format wins. -/
theorem C6_parse_error_iff (s : String) :
    (parse_datetime s = .error expectedFormatMessage ↔
      parseFormat '-' (stripChars s.data) = none ∧
        parseFormat '/' (stripChars s.data) = none) ∧
    (∀ e, parse_datetime s = .error e → e = expectedFormatMessage) ∧
    (∀ v, parseFormat '-' (stripChars s.data) = some v →
      parse_datetime s = .ok v) ∧
    (∀ v, parseFormat '-' (stripChars s.data) = none →
      parseFormat '/' (stripChars s.data) = some v → parse_datetime s = .ok v) := by
  rcases h1 : parseFormat '-' (stripChars s.data) with _ | v1 <;>
    rcases h2 : parseFormat '/' (stripChars s.data) with _ | v2 <;>
      simp [parse_datetime, h1, h2]

theorem C6_witness :
    parse_datetime "not a date" = .error expectedFormatMessage ∧
    parse_datetime "1990-05-17 08:30" = .ok ⟨⟨1990, 5, 17⟩, ⟨8, 30⟩⟩ :=
  ⟨(C6_parse_error_iff "not a date").1.mpr ⟨rfl, rfl⟩,
    (C6_parse_error_iff "1990-05-17 08:30").2.2.1 ⟨⟨1990, 5, 17⟩, ⟨8, 30⟩⟩ rfl⟩

/-- C7: the weak-element selection sorts the tally ascending by count
with a stable sort — the result is ascending and, at every count value,
keeps the first-seen (table) order, so on ties the earlier category is
selected or listed first — and the two weak elements are exactly the
first two entries of that sorted list. -/
theorem C7_stable_selection (counts : List (String × Nat)) :
    List.Sorted (fun a b : String × Nat => a.2 ≤ b.2) (sorted_elements counts) ∧
    (∀ k : Nat, (sorted_elements counts).filter (fun p => p.2 == k) =
      counts.filter (fun p => p.2 == k)) ∧
    weak_elements counts = ((sorted_elements counts).take 2).map Prod.fst :=
  ⟨sorted_elements_sorted counts, filter_sorted_elements counts, rfl⟩

/-- C8: each clock hour below 24 selects the branch of its two-hour
window (closed form `BRANCHES[((h + 1) % 24) / 2]`), and every hour `h`
with `h ≥ 23` or `h < 1` — the wrap-around window, whose start exceeds
its end — selects the first branch. -/
theorem C8_hour_windows :
    (∀ h : Nat, h < 24 →
      hourBranchScan h HOUR_BRANCHES = BRANCHES.getD (((h + 1) % 24) / 2) "") ∧
    (∀ h : Nat, 23 ≤ h ∨ h < 1 → hourBranchScan h HOUR_BRANCHES = "子") := by
  constructor
  · decide
  · intro h hh
    rcases hh with h23 | h0
    · unfold HOUR_BRANCHES
      rw [hourBranchScan_cons,
        if_pos (show (23 ≤ 1 ∧ 23 ≤ h ∧ h < 1) ∨ (1 < 23 ∧ (23 ≤ h ∨ h < 1)) from
          Or.inr ⟨by omega, Or.inl h23⟩)]
    · have h0' : h = 0 := by omega
      subst h0'
      decide

theorem C8_witness :
    hourBranchScan 5 HOUR_BRANCHES = BRANCHES.getD 3 "" ∧
    hourBranchScan 23 HOUR_BRANCHES = "子" :=
  ⟨C8_hour_windows.1 5 (by decide), C8_hour_windows.2 23 (Or.inl (by decide))⟩

/-- C9: for every valid date and time the derived year and day indices
land in [0, 10) after mod 10 and [0, 12) after mod 12, and every table
lookup of the pillar pipeline is total: the computation succeeds and each
produced stem and branch is an entry of its table. -/
theorem C9_indices_in_range (d : Date) (t : TimeOfDay)
    (hd : ValidDate d) (ht : t.hour < 24) :
    (((d.year : Int) - 1984) % 10).toNat < 10 ∧
    (((d.year : Int) - 1984) % 12).toNat < 12 ∧
    (day_index_from_base d % 10).toNat < 10 ∧
    (day_index_from_base d % 12).toNat < 12 ∧
    ∃ b, compute_bazi d t = some b ∧
      ∀ p ∈ b.pillars, p.1 ∈ STEMS ∧ p.2 ∈ BRANCHES := by
  obtain ⟨b, hb, -, -, hmem⟩ := compute_bazi_total d t hd ht
  exact ⟨emod_ten_toNat_lt _, emod_twelve_toNat_lt _, emod_ten_toNat_lt _,
    emod_twelve_toNat_lt _, b, hb, hmem⟩

theorem C9_witness :
    (compute_bazi ⟨2024, 6, 15⟩ ⟨13, 45⟩).isSome = true := by
  obtain ⟨-, -, -, -, b, hb, -⟩ :=
    C9_indices_in_range ⟨2024, 6, 15⟩ ⟨13, 45⟩ (by decide) (by decide)
  rw [hb]
  rfl

/-- C10: the parser strips leading and trailing whitespace before
matching, so padding an input with whitespace on either side never
changes the result of parsing. -/
theorem C10_strip_whitespace (pad tail : List Char) (s : String)
    (hpad : ∀ c ∈ pad, c.isWhitespace = true)
    (htail : ∀ c ∈ tail, c.isWhitespace = true) :
    parse_datetime ⟨pad ++ s.data ++ tail⟩ = parse_datetime s := by
  unfold parse_datetime
  rw [show (String.mk (pad ++ s.data ++ tail)).data = pad ++ s.data ++ tail from rfl,
    stripChars_pad hpad htail]

theorem C10_witness :
    parse_datetime ⟨[' '] ++ "1990-05-17 08:30".data ++ [' ', '\t']⟩ =
      parse_datetime "1990-05-17 08:30" :=
  C10_strip_whitespace [' '] [' ', '\t'] "1990-05-17 08:30" (by decide) (by decide)
